import Mathlib

/-!  Verification of the Dayan divination core (`src/dayan_divination.py`).

Shallow embedding conventions: the Gaussian draw of `random.gauss` is an
explicit rational parameter `g` (one per change step; the engine consumes
draws from a stream `d : ℕ → ℚ` indexed in consumption order); Python
`int()` is truncation toward zero; Python `%` and `//` (always used here
with the positive modulus 4) are `Int`'s `%` and `/`, which agree with
Python's on positive divisors; Python strings of `'0'` and `'1'` are
lists of characters.
-/

/-- Python `int()` applied to the Gaussian draw: truncation toward zero
(floor for nonnegative arguments, ceiling for negative ones). -/
def gaussToInt (g : ℚ) : ℤ := if g < 0 then ⌈g⌉ else ⌊g⌋

/-- Rounding to the nearest integer, as the spec words the draw.  Kept
separate so the spec's wording can be compared with the code's
truncation. -/
def roundNearest (g : ℚ) : ℤ := round g

/-- `DayanDivination.human_split` (src lines 44-57): `left` is the
truncated Gaussian draw, clamped first below (`left < 1 → 1`) and then
above (`left >= total → total - 1`); `right = total - left`. -/
def human_split (g : ℚ) (total : ℤ) : ℤ × ℤ :=
  let draw := gaussToInt g
  let low := if draw < 1 then 1 else draw
  let left := if total ≤ low then total - 1 else low
  (left, total - left)

/-- `DayanDivination._calculate_physical_count` (src lines 59-64):
remainder mod 4 with a zero remainder remapped to 4. -/
def calculate_physical_count (count : ℤ) : ℤ :=
  if count % 4 = 0 then 4 else count % 4

/-- The record returned by one change (the dict built at src lines
105-112). -/
structure ChangeRecord where
  left : ℤ
  right : ℤ
  left_rem : ℤ
  right_rem : ℤ
  removed : ℤ
  new_total : ℤ
deriving DecidableEq, Repr

/-- `DayanDivination._calculate_change` (src lines 86-112): split,
hang one from the right pile, reduce both piles mod 4 (0 remapped to 4),
remove `1 + left_rem + right_rem` from the running total. -/
def calculate_change (g : ℚ) (current_total : ℤ) : ChangeRecord :=
  let lr := human_split g current_total
  let right_hang := lr.2 - 1
  let hang_one : ℤ := 1
  let left_rem := calculate_physical_count lr.1
  let right_rem := calculate_physical_count right_hang
  let removed := hang_one + left_rem + right_rem
  { left := lr.1, right := lr.2, left_rem := left_rem,
    right_rem := right_rem, removed := removed,
    new_total := current_total - removed }

/-- One line: three chained changes starting from 49 stalks
(`DayanDivination._calculate_line`, src lines 114-126; the
`for _ in range(3)` loop is unrolled).  `base` is the index of the first
Gaussian draw this line consumes from the stream `d`. -/
def calculate_line (d : ℕ → ℚ) (base : ℕ) : ℤ × List ChangeRecord :=
  let c1 := calculate_change (d base) 49
  let c2 := calculate_change (d (base + 1)) c1.new_total
  let c3 := calculate_change (d (base + 2)) c2.new_total
  -- Python `// 4`: floor division; the divisor is positive, so `Int`
  -- division (Euclidean) agrees with it.
  (c3.new_total / 4, [c1, c2, c3])

/-- One entry of the process log (the dict built at src lines 141-145). -/
structure LineRecord where
  line_idx : ℕ
  value : ℤ
  changes : List ChangeRecord
deriving DecidableEq, Repr

/-- Loop body of `DayanDivination.get_hexagram_result` (src lines 252-269),
rendered as structural recursion carrying the running 0-based index:
returns the original-binary characters, the changed-binary characters and
the 1-based changing-line positions. -/
def hexLoop (idx : ℕ) : List ℤ → List Char × List Char × List ℕ
  | [] => ([], [], [])
  | val :: rest =>
    let tail := hexLoop (idx + 1) rest
    ((if val = 7 ∨ val = 9 then '1' else '0') :: tail.1,
     (if val = 6 then '1'
      else if val = 9 then '0'
      else if val = 7 then '1' else '0') :: tail.2.1,
     (if val = 6 ∨ val = 9 then [idx + 1] else []) ++ tail.2.2)

/-- The hexagram result (the dict built at src lines 271-277). -/
structure HexagramResult where
  original_lines : List ℤ
  original_binary : List Char
  changed_binary : List Char
  changing_lines : List ℕ
  has_change : Bool
deriving DecidableEq, Repr

/-- `DayanDivination.get_hexagram_result` (src lines 234-277). -/
def get_hexagram_result (lines : List ℤ) : HexagramResult :=
  { original_lines := lines
    original_binary := (hexLoop 0 lines).1
    changed_binary := (hexLoop 0 lines).2.1
    changing_lines := (hexLoop 0 lines).2.2
    has_change := decide (0 < (hexLoop 0 lines).2.2.length) }

/-- The complete output of `DayanDivination.simulate` (src lines 150-153). -/
structure DivinationResult where
  hex_result : HexagramResult
  process_log : List LineRecord
deriving DecidableEq, Repr

/-- `DayanDivination.simulate` (src lines 128-153): six lines in order,
line `k` (0-based) consuming draws `d (3*k)`, `d (3*k+1)`, `d (3*k+2)`;
the hexagram is built from the six line values. -/
def simulate (d : ℕ → ℚ) : DivinationResult :=
  let line_data := (List.range 6).map (fun k =>
    { line_idx := k + 1
      value := (calculate_line d (3 * k)).1
      changes := (calculate_line d (3 * k)).2 : LineRecord })
  let final_lines := line_data.map (fun r => r.value)
  { hex_result := get_hexagram_result final_lines
    process_log := line_data }

/-- The counting loop of `DayanDivination._display_physical_count`
(src lines 74-81): repeatedly subtract 4 while more than 4 remain. -/
def physical_count_loop (n : ℕ) : ℕ :=
  if h : 4 < n then physical_count_loop (n - 4) else n
termination_by n
decreasing_by omega

/-- `DayanDivination._display_physical_count` (src lines 66-84), with the
printing stripped: the non-verbose branch uses `count % 4` remapped, the
verbose branch replays the subtract-4 loop and remaps a zero result. -/
def display_physical_count (verbose : Bool) (count : ℕ) : ℕ :=
  if !verbose then
    if count % 4 = 0 then 4 else count % 4
  else
    let current := physical_count_loop count
    if current = 0 then 4 else current

/-! ### Helper lemmas about the split and one change step -/

lemma human_split_left_bounds (g : ℚ) (total : ℤ) (h : 2 ≤ total) :
    1 ≤ (human_split g total).1 ∧ (human_split g total).1 ≤ total - 1 := by
  simp only [human_split]
  split_ifs <;> omega

lemma human_split_snd (g : ℚ) (total : ℤ) :
    (human_split g total).2 = total - (human_split g total).1 := rfl

lemma calculate_change_left (g : ℚ) (T : ℤ) :
    (calculate_change g T).left = (human_split g T).1 := rfl

lemma calculate_change_right (g : ℚ) (T : ℤ) :
    (calculate_change g T).right = (human_split g T).2 := rfl

lemma calculate_change_left_rem (g : ℚ) (T : ℤ) :
    (calculate_change g T).left_rem
      = calculate_physical_count (human_split g T).1 := rfl

lemma calculate_change_right_rem (g : ℚ) (T : ℤ) :
    (calculate_change g T).right_rem
      = calculate_physical_count ((human_split g T).2 - 1) := rfl

lemma calculate_change_removed_eq (g : ℚ) (T : ℤ) :
    (calculate_change g T).removed
      = 1 + (calculate_change g T).left_rem + (calculate_change g T).right_rem :=
  rfl

lemma calculate_change_new_total_eq (g : ℚ) (T : ℤ) :
    (calculate_change g T).new_total = T - (calculate_change g T).removed := rfl

lemma calculate_physical_count_range (c : ℤ) :
    1 ≤ calculate_physical_count c ∧ calculate_physical_count c ≤ 4 := by
  simp only [calculate_physical_count]
  split_ifs <;> omega

lemma getD_map_of_lt (f : ℤ → Char) (l : List ℤ) (i : ℕ) (h : i < l.length) :
    (l.map f).getD i 'x' = f (l.getD i 0) := by
  rw [List.getD_eq_getElem _ _ (by simpa using h), List.getD_eq_getElem _ _ h,
    List.getElem_map]

/-- One change from the classical pool of 49 leaves 40 or 44 stalks. -/
lemma change_from_49 (g : ℚ) :
    (calculate_change g 49).new_total = 40 ∨
      (calculate_change g 49).new_total = 44 := by
  obtain ⟨h1, h2⟩ := human_split_left_bounds g 49 (by norm_num)
  rw [calculate_change_new_total_eq, calculate_change_removed_eq,
    calculate_change_left_rem, calculate_change_right_rem, human_split_snd]
  simp only [calculate_physical_count]
  split_ifs <;> omega

/-! ### Helper lemmas about the hexagram-building loop -/

lemma hexLoop_fst (idx : ℕ) (l : List ℤ) :
    (hexLoop idx l).1 = l.map (fun v => if v = 7 ∨ v = 9 then '1' else '0') := by
  induction l generalizing idx with
  | nil => rfl
  | cons v rest ih => simp [hexLoop, ih]

lemma hexLoop_snd (idx : ℕ) (l : List ℤ) :
    (hexLoop idx l).2.1 = l.map (fun v =>
      if v = 6 then '1' else if v = 9 then '0' else if v = 7 then '1' else '0') := by
  induction l generalizing idx with
  | nil => rfl
  | cons v rest ih => simp [hexLoop, ih]

lemma hexLoop_cls_mem (idx : ℕ) (l : List ℤ) (p : ℕ) :
    p ∈ (hexLoop idx l).2.2 ↔
      ∃ j, j < l.length ∧ (l.getD j 0 = 6 ∨ l.getD j 0 = 9) ∧ p = idx + j + 1 := by
  induction l generalizing idx with
  | nil => simp [hexLoop]
  | cons v rest ih =>
    simp only [hexLoop, List.mem_append, ih]
    constructor
    · rintro (hp | ⟨j, hj, hv, rfl⟩)
      · refine ⟨0, by simp, ?_, ?_⟩
        · split_ifs at hp with h
          · simpa using h
          · simp at hp
        · split_ifs at hp with h
          · simp at hp; omega
          · simp at hp
      · exact ⟨j + 1, by simpa using hj, by simpa using hv, by omega⟩
    · rintro ⟨j, hj, hv, rfl⟩
      cases j with
      | zero =>
        left
        simp only [List.getD_cons_zero] at hv
        simp [hv]
      | succ j =>
        right
        exact ⟨j, by simpa using hj, by simpa using hv, by omega⟩

lemma hexLoop_cls_lb (idx : ℕ) (l : List ℤ) :
    ∀ p ∈ (hexLoop idx l).2.2, idx + 1 ≤ p := by
  intro p hp
  rw [hexLoop_cls_mem] at hp
  obtain ⟨j, _, _, rfl⟩ := hp
  omega

lemma hexLoop_cls_chain (idx : ℕ) (l : List ℤ) :
    List.Chain' (· < ·) (hexLoop idx l).2.2 := by
  induction l generalizing idx with
  | nil => simp [hexLoop]
  | cons v rest ih =>
    simp only [hexLoop]
    split_ifs with h
    · refine List.chain'_cons'.mpr ⟨?_, ih (idx + 1)⟩
      intro b hb
      have := hexLoop_cls_lb (idx + 1) rest b (List.mem_of_mem_head? hb)
      omega
    · simpa using ih (idx + 1)

/-- One change from a total divisible by 4 removes 4 or 8 stalks. -/
lemma change_step_mod0 (g : ℚ) (T : ℤ) (hT : 2 ≤ T) (h4 : T % 4 = 0) :
    (calculate_change g T).new_total = T - 4 ∨
      (calculate_change g T).new_total = T - 8 := by
  obtain ⟨h1, h2⟩ := human_split_left_bounds g T hT
  rw [calculate_change_new_total_eq, calculate_change_removed_eq,
    calculate_change_left_rem, calculate_change_right_rem, human_split_snd]
  simp only [calculate_physical_count]
  split_ifs <;> omega

/-! ### Claim theorems -/

/-- **C1.** For every line computation starting from the pool of 49 stalks
and every random draw of the split: after change 1 the running total is in
{40, 44}; after change 2 it is in {32, 36, 40}; after change 3 it is in
{24, 28, 32, 36}; hence the line value `new_total // 4` is always in
{6, 7, 8, 9} and no other value can be produced. -/
theorem line_totals_in_range (d : ℕ → ℚ) (base : ℕ) :
    ∃ c1 c2 c3 : ChangeRecord,
      (calculate_line d base).2 = [c1, c2, c3] ∧
      (c1.new_total = 40 ∨ c1.new_total = 44) ∧
      (c2.new_total = 32 ∨ c2.new_total = 36 ∨ c2.new_total = 40) ∧
      (c3.new_total = 24 ∨ c3.new_total = 28 ∨
        c3.new_total = 32 ∨ c3.new_total = 36) ∧
      (calculate_line d base).1 = c3.new_total / 4 ∧
      ((calculate_line d base).1 = 6 ∨ (calculate_line d base).1 = 7 ∨
        (calculate_line d base).1 = 8 ∨ (calculate_line d base).1 = 9) := by
  have h1 := change_from_49 (d base)
  have h2 := change_step_mod0 (d (base + 1))
    (calculate_change (d base) 49).new_total
    (by rcases h1 with h | h <;> omega)
    (by rcases h1 with h | h <;> omega)
  have h3 := change_step_mod0 (d (base + 2))
    (calculate_change (d (base + 1))
      (calculate_change (d base) 49).new_total).new_total
    (by rcases h2 with h | h <;> rcases h1 with h' | h' <;> omega)
    (by rcases h2 with h | h <;> rcases h1 with h' | h' <;> omega)
  refine ⟨_, _, _, rfl, h1, ?_, ?_, rfl, ?_⟩
  · rcases h2 with h | h <;> rcases h1 with h' | h' <;> omega
  · rcases h3 with h | h <;> rcases h2 with h' | h' <;>
      rcases h1 with h'' | h'' <;> omega
  · have hv : (calculate_line d base).1
        = (calculate_change (d (base + 2))
            (calculate_change (d (base + 1))
              (calculate_change (d base) 49).new_total).new_total).new_total / 4 :=
      rfl
    rw [hv]
    rcases h3 with h | h <;> rcases h2 with h' | h' <;>
      rcases h1 with h'' | h'' <;> omega

/-- **C2.** For every positive `current_total`, one change step with split
result `(left, right)` produces a record with `left_rem = left mod 4`
(0 remapped to 4), `right_rem = (right - 1) mod 4` (0 remapped to 4),
`removed = 1 + left_rem + right_rem`, `new_total = current_total - removed`,
and both remainders in `[1, 4]`. -/
theorem change_record_fields (g : ℚ) (T : ℤ) (hT : 0 < T) :
    (calculate_change g T).left = (human_split g T).1 ∧
    (calculate_change g T).right = (human_split g T).2 ∧
    (calculate_change g T).left_rem =
      (if (calculate_change g T).left % 4 = 0 then 4
       else (calculate_change g T).left % 4) ∧
    (calculate_change g T).right_rem =
      (if ((calculate_change g T).right - 1) % 4 = 0 then 4
       else ((calculate_change g T).right - 1) % 4) ∧
    (calculate_change g T).removed
      = 1 + (calculate_change g T).left_rem + (calculate_change g T).right_rem ∧
    (calculate_change g T).new_total = T - (calculate_change g T).removed ∧
    1 ≤ (calculate_change g T).left_rem ∧ (calculate_change g T).left_rem ≤ 4 ∧
    1 ≤ (calculate_change g T).right_rem ∧ (calculate_change g T).right_rem ≤ 4 := by
  refine ⟨rfl, rfl, rfl, rfl, rfl, rfl, ?_, ?_, ?_, ?_⟩
  · exact (calculate_physical_count_range (human_split g T).1).1
  · exact (calculate_physical_count_range (human_split g T).1).2
  · exact (calculate_physical_count_range ((human_split g T).2 - 1)).1
  · exact (calculate_physical_count_range ((human_split g T).2 - 1)).2

/-- Witness for C2 at the concrete input `g = 1`, `current_total = 49`. -/
theorem change_record_fields_witness :
    (calculate_change 1 49).removed
      = 1 + (calculate_change 1 49).left_rem + (calculate_change 1 49).right_rem ∧
    1 ≤ (calculate_change 1 49).left_rem ∧
    1 ≤ (calculate_change 1 49).right_rem :=
  ⟨(change_record_fields 1 49 (by norm_num)).2.2.2.2.1,
   (change_record_fields 1 49 (by norm_num)).2.2.2.2.2.2.1,
   (change_record_fields 1 49 (by norm_num)).2.2.2.2.2.2.2.2.1⟩

/-- **C3.** For six line values in {6,7,8,9}: the original binary has '1'
exactly at values 7 and 9; the changed binary follows the table 6→'1',
9→'0', 7→'1', 8→'0' (so it agrees with the original binary at 7 and 8);
the changing lines are the ascending 1-based positions holding 6 or 9;
`has_change` holds iff some line changes; and both binaries are
six characters long, drawn from {'0','1'}. -/
theorem hexagram_builder_correct (l : List ℤ) (hlen : l.length = 6)
    (hv : ∀ v ∈ l, v = 6 ∨ v = 7 ∨ v = 8 ∨ v = 9) :
    (get_hexagram_result l).original_binary.length = 6 ∧
    (get_hexagram_result l).changed_binary.length = 6 ∧
    (∀ c ∈ (get_hexagram_result l).original_binary, c = '0' ∨ c = '1') ∧
    (∀ c ∈ (get_hexagram_result l).changed_binary, c = '0' ∨ c = '1') ∧
    (∀ i, i < 6 →
      ((get_hexagram_result l).original_binary.getD i 'x' = '1'
        ↔ (l.getD i 0 = 7 ∨ l.getD i 0 = 9))) ∧
    (∀ i, i < 6 →
      (l.getD i 0 = 6 → (get_hexagram_result l).changed_binary.getD i 'x' = '1') ∧
      (l.getD i 0 = 9 → (get_hexagram_result l).changed_binary.getD i 'x' = '0') ∧
      (l.getD i 0 = 7 → (get_hexagram_result l).changed_binary.getD i 'x' = '1') ∧
      (l.getD i 0 = 8 → (get_hexagram_result l).changed_binary.getD i 'x' = '0') ∧
      ((l.getD i 0 = 7 ∨ l.getD i 0 = 8) →
        (get_hexagram_result l).changed_binary.getD i 'x'
          = (get_hexagram_result l).original_binary.getD i 'x')) ∧
    List.Chain' (· < ·) (get_hexagram_result l).changing_lines ∧
    (∀ p, p ∈ (get_hexagram_result l).changing_lines ↔
      1 ≤ p ∧ p ≤ 6 ∧ (l.getD (p - 1) 0 = 6 ∨ l.getD (p - 1) 0 = 9)) ∧
    ((get_hexagram_result l).has_change = true ↔
      (get_hexagram_result l).changing_lines ≠ []) := by
  have hob : (get_hexagram_result l).original_binary
      = l.map (fun v => if v = 7 ∨ v = 9 then '1' else '0') := hexLoop_fst 0 l
  have hcb : (get_hexagram_result l).changed_binary
      = l.map (fun v =>
          if v = 6 then '1' else if v = 9 then '0'
          else if v = 7 then '1' else '0') := hexLoop_snd 0 l
  have hcl : (get_hexagram_result l).changing_lines = (hexLoop 0 l).2.2 := rfl
  refine ⟨?_, ?_, ?_, ?_, ?_, ?_, ?_, ?_, ?_⟩
  · rw [hob]; simp [hlen]
  · rw [hcb]; simp [hlen]
  · rw [hob]
    intro c hc
    rcases List.mem_map.mp hc with ⟨v, -, rfl⟩
    split_ifs <;> simp
  · rw [hcb]
    intro c hc
    rcases List.mem_map.mp hc with ⟨v, -, rfl⟩
    split_ifs <;> simp
  · intro i hi
    rw [hob, getD_map_of_lt _ _ _ (by omega)]
    split_ifs with h
    · simpa using h
    · simpa using h
  · intro i hi
    rw [hcb, hob, getD_map_of_lt _ _ _ (by omega), getD_map_of_lt _ _ _ (by omega)]
    refine ⟨?_, ?_, ?_, ?_, ?_⟩ <;> intro h
    · rw [h]; decide
    · rw [h]; decide
    · rw [h]; decide
    · rw [h]; decide
    · rcases h with h | h <;> rw [h] <;> decide
  · rw [hcl]; exact hexLoop_cls_chain 0 l
  · intro p
    rw [hcl, hexLoop_cls_mem]
    constructor
    · rintro ⟨j, hj, hv6, rfl⟩
      rw [hlen] at hj
      refine ⟨by omega, by omega, ?_⟩
      simpa [show 0 + j + 1 - 1 = j by omega] using hv6
    · rintro ⟨hp1, hp6, hvp⟩
      exact ⟨p - 1, by omega, hvp, by omega⟩
  · simp [get_hexagram_result, List.length_pos]

/-- Witness for C3 at the concrete input `[6, 7, 8, 9, 7, 8]`. -/
theorem hexagram_builder_correct_witness :
    (get_hexagram_result [6, 7, 8, 9, 7, 8]).original_binary.length = 6 ∧
    ((get_hexagram_result [6, 7, 8, 9, 7, 8]).has_change = true ↔
      (get_hexagram_result [6, 7, 8, 9, 7, 8]).changing_lines ≠ []) :=
  ⟨(hexagram_builder_correct [6, 7, 8, 9, 7, 8] (by decide) (by decide)).1,
   (hexagram_builder_correct [6, 7, 8, 9, 7, 8]
      (by decide) (by decide)).2.2.2.2.2.2.2.2⟩

/-- **C4.** Every engine run produces a process log of exactly 6 line
records with `line_idx` 1..6 in order, each holding exactly 3 change
records chained by feeding each `new_total` into the next, each line
restarting from 49 stalks, and `hex_result.original_lines` equal to the
six line values in line order. -/
theorem simulate_log_structure (d : ℕ → ℚ) :
    (simulate d).process_log.map (fun r => r.line_idx) = [1, 2, 3, 4, 5, 6] ∧
    (∀ lrec ∈ (simulate d).process_log, ∃ a b c : ChangeRecord,
      lrec.changes = [a, b, c] ∧
      a.new_total = 49 - a.removed ∧
      b.new_total = a.new_total - b.removed ∧
      c.new_total = b.new_total - c.removed ∧
      lrec.value = c.new_total / 4) ∧
    (simulate d).hex_result.original_lines
      = (simulate d).process_log.map (fun r => r.value) := by
  refine ⟨rfl, ?_, rfl⟩
  intro lrec hmem
  simp only [simulate] at hmem
  rcases List.mem_map.mp hmem with ⟨k, -, rfl⟩
  exact ⟨calculate_change (d (3 * k)) 49,
    calculate_change (d (3 * k + 1)) (calculate_change (d (3 * k)) 49).new_total,
    calculate_change (d (3 * k + 2))
      (calculate_change (d (3 * k + 1))
        (calculate_change (d (3 * k)) 49).new_total).new_total,
    rfl, rfl, rfl, rfl, rfl⟩

lemma calculate_line_congr (d₁ d₂ : ℕ → ℚ) (base : ℕ)
    (h0 : d₁ base = d₂ base) (h1 : d₁ (base + 1) = d₂ (base + 1))
    (h2 : d₁ (base + 2) = d₂ (base + 2)) :
    calculate_line d₁ base = calculate_line d₂ base := by
  unfold calculate_line
  rw [h0, h1, h2]

/-- **C9.** The engine is deterministic in the supplied random sequence:
two runs whose draw streams agree on the 18 draws actually consumed
(6 lines x 3 changes) produce identical `DivinationResult`s. -/
theorem simulate_deterministic (d₁ d₂ : ℕ → ℚ)
    (h : ∀ i, i < 18 → d₁ i = d₂ i) : simulate d₁ = simulate d₂ := by
  simp only [simulate]
  have e : (List.range 6).map (fun k =>
        ({ line_idx := k + 1, value := (calculate_line d₁ (3 * k)).1,
           changes := (calculate_line d₁ (3 * k)).2 } : LineRecord))
      = (List.range 6).map (fun k =>
        ({ line_idx := k + 1, value := (calculate_line d₂ (3 * k)).1,
           changes := (calculate_line d₂ (3 * k)).2 } : LineRecord)) := by
    refine List.map_congr_left ?_
    intro k hk
    have hk6 : k < 6 := List.mem_range.mp hk
    have hc : calculate_line d₁ (3 * k) = calculate_line d₂ (3 * k) :=
      calculate_line_congr d₁ d₂ (3 * k)
        (h _ (by omega)) (h _ (by omega)) (h _ (by omega))
    rw [hc]
  rw [e]

/-- Witness for C9: two concrete streams that agree on the first 18 draws
yield equal results. -/
theorem simulate_deterministic_witness :
    simulate (fun i => (i : ℚ))
      = simulate (fun i => if i < 18 then (i : ℚ) else 37) :=
  simulate_deterministic _ _ (fun i hi => by simp [hi])

/-- **C7.** For every total >= 2 and every draw, the split returns
`(left, right)` with `1 <= left <= total - 1` and `right = total - left`,
so both piles are nonempty; the clamp makes every such input yield a
valid pair. -/
theorem human_split_safe (g : ℚ) (total : ℤ) (h : 2 ≤ total) :
    1 ≤ (human_split g total).1 ∧ (human_split g total).1 ≤ total - 1 ∧
    (human_split g total).2 = total - (human_split g total).1 ∧
    1 ≤ (human_split g total).2 := by
  obtain ⟨h1, h2⟩ := human_split_left_bounds g total h
  refine ⟨h1, h2, rfl, ?_⟩
  rw [human_split_snd]
  omega

/-- Witness for C7 at the concrete input `g = 1`, `total = 49`. -/
theorem human_split_safe_witness :
    1 ≤ (human_split 1 49).1 ∧ 1 ≤ (human_split 1 49).2 :=
  ⟨(human_split_safe 1 49 (by norm_num)).1,
   (human_split_safe 1 49 (by norm_num)).2.2.2⟩

/-- Counterexample to C5 as stated: `current_total = 2` is positive, yet
with draw 1 (which splits into piles (1, 1)) the change step returns
`new_total = -4 < 0`. -/
theorem change_negative_total_cex :
    (0 : ℤ) < 2 ∧ (calculate_change 1 2).new_total = -4 := by decide

/-- **C5 (amended).** For every positive `current_total`, the remainders
always lie in `[1, 4]`; `new_total` is nonnegative whenever
`current_total >= 9` (the most a change removes is `1 + 4 + 4 = 9`). -/
theorem change_safe_amended (g : ℚ) (T : ℤ) (hT : 0 < T) :
    (1 ≤ (calculate_change g T).left_rem ∧ (calculate_change g T).left_rem ≤ 4 ∧
     1 ≤ (calculate_change g T).right_rem ∧
     (calculate_change g T).right_rem ≤ 4) ∧
    (9 ≤ T → 0 ≤ (calculate_change g T).new_total) := by
  have l1 := calculate_physical_count_range (human_split g T).1
  have l2 := calculate_physical_count_range ((human_split g T).2 - 1)
  refine ⟨⟨l1.1, l1.2, l2.1, l2.2⟩, ?_⟩
  intro h9
  rw [calculate_change_new_total_eq, calculate_change_removed_eq,
    calculate_change_left_rem, calculate_change_right_rem]
  omega

/-- Witness for the amended C5 at `g = 1`, `current_total = 49`. -/
theorem change_safe_amended_witness :
    1 ≤ (calculate_change 1 49).left_rem ∧
    0 ≤ (calculate_change 1 49).new_total :=
  ⟨(change_safe_amended 1 49 (by norm_num)).1.1,
   (change_safe_amended 1 49 (by norm_num)).2 (by norm_num)⟩

/-- Counterexample to C6 as stated: with draw `g = 4.7` the pre-clamp left
pile is `int(4.7) = 4` (no clamp fires at total 49, so the split returns
exactly it), while rounding to the nearest integer gives 5. -/
theorem split_rounding_cex :
    gaussToInt (47/10) = 4 ∧ roundNearest (47/10) = 5 ∧
    (human_split (47/10) 49).1 = 4 := by
  have h4 : gaussToInt (47/10) = 4 := by
    rw [gaussToInt, if_neg (by norm_num), Int.floor_eq_iff]
    norm_num
  refine ⟨h4, ?_, ?_⟩
  · rw [roundNearest, round_eq, Int.floor_eq_iff]
    norm_num
  · simp only [human_split, h4]
    norm_num

/-- **C6 (amended).** The split's left pile before clamping is the
Gaussian draw truncated toward zero (Python `int()`): it satisfies the
floor characterization for nonnegative draws and the ceiling
characterization for negative ones, and whenever it needs no clamping the
split returns it unchanged. -/
theorem split_truncates_draw (g : ℚ) :
    (0 ≤ g → (gaussToInt g : ℚ) ≤ g ∧ g < (gaussToInt g : ℚ) + 1) ∧
    (g < 0 → g ≤ (gaussToInt g : ℚ) ∧ (gaussToInt g : ℚ) - 1 < g) ∧
    (∀ total : ℤ, 1 ≤ gaussToInt g → gaussToInt g ≤ total - 1 →
      (human_split g total).1 = gaussToInt g) := by
  refine ⟨?_, ?_, ?_⟩
  · intro h
    rw [gaussToInt, if_neg (by push_neg; exact h)]
    exact ⟨Int.floor_le g, by exact_mod_cast Int.lt_floor_add_one g⟩
  · intro h
    rw [gaussToInt, if_pos h]
    refine ⟨Int.le_ceil g, ?_⟩
    have := Int.ceil_lt_add_one g
    linarith
  · intro total h1 h2
    simp only [human_split]
    split_ifs <;> omega

/-- Witness for the amended C6 at `g = 4.7`, `total = 49`. -/
theorem split_truncates_draw_witness :
    (human_split (47/10) 49).1 = gaussToInt (47/10) ∧
    (gaussToInt (47/10) : ℚ) ≤ 47/10 := by
  have h4 : gaussToInt (47/10) = 4 := by
    rw [gaussToInt, if_neg (by norm_num), Int.floor_eq_iff]
    norm_num
  exact ⟨(split_truncates_draw (47/10)).2.2 49
      (by rw [h4]; norm_num) (by rw [h4]; norm_num),
    ((split_truncates_draw (47/10)).1 (by norm_num)).1⟩

/-- Counterexample to C8 as stated: a seven-element, out-of-range input is
accepted and yields a silently malformed seven-character result instead of
an invalid-input signal. -/
theorem hexagram_no_validation_cex :
    (get_hexagram_result [5, 5, 5, 5, 5, 5, 5]).original_binary.length = 7 ∧
    (get_hexagram_result [5, 5, 5, 5, 5, 5, 5]).changed_binary
      = ['0', '0', '0', '0', '0', '0', '0'] := by decide

/-- **C8 (amended).** The hexagram builder performs no input validation:
every input list is accepted, the two binaries always have exactly the
input's length, and the input is echoed as `original_lines` — malformed
input silently yields a malformed result. -/
theorem hexagram_totalizes (l : List ℤ) :
    (get_hexagram_result l).original_binary.length = l.length ∧
    (get_hexagram_result l).changed_binary.length = l.length ∧
    (get_hexagram_result l).original_lines = l := by
  have hob : (get_hexagram_result l).original_binary
      = l.map (fun v => if v = 7 ∨ v = 9 then '1' else '0') := hexLoop_fst 0 l
  have hcb : (get_hexagram_result l).changed_binary
      = l.map (fun v =>
          if v = 6 then '1' else if v = 9 then '0'
          else if v = 7 then '1' else '0') := hexLoop_snd 0 l
  refine ⟨?_, ?_, rfl⟩
  · rw [hob]; simp
  · rw [hcb]; simp

lemma physical_count_loop_spec (n : ℕ) (hn : 0 < n) :
    physical_count_loop n = if n % 4 = 0 then 4 else n % 4 := by
  induction n using Nat.strong_induction_on with
  | _ n ih =>
    rw [physical_count_loop]
    split_ifs with h h1 h2
    · rw [ih (n - 4) (by omega) (by omega)]
      split_ifs <;> omega
    · rw [ih (n - 4) (by omega) (by omega)]
      split_ifs <;> omega
    · omega
    · omega

/-- **C10.** For every count >= 0, the loop-based replay counting routine
(subtract 4 while more than 4 remain, remap 0 to 4) agrees with the
modulo-based remainder function, in both the verbose and the non-verbose
branch. -/
theorem display_replay_matches_modulo (n : ℕ) :
    (display_physical_count true n : ℤ) = calculate_physical_count (n : ℤ) ∧
    (display_physical_count false n : ℤ) = calculate_physical_count (n : ℤ) := by
  constructor
  · rw [show display_physical_count true n
        = (if physical_count_loop n = 0 then 4 else physical_count_loop n)
      from rfl]
    rcases Nat.eq_zero_or_pos n with h0 | hp
    · subst h0
      have h00 : physical_count_loop 0 = 0 := by rw [physical_count_loop]; norm_num
      rw [h00]
      simp [calculate_physical_count]
    · rw [physical_count_loop_spec n hp]
      simp only [calculate_physical_count]
      split_ifs <;> omega
  · rw [show display_physical_count false n
        = (if n % 4 = 0 then 4 else n % 4) from rfl]
    simp only [calculate_physical_count]
    split_ifs <;> omega
